import Mathlib

/-!
Shallow embedding of `src/PyFrame/pyframe.py`.

The Python module defines an `Artist` class with three subclasses
(`TimedArtist`, `ToggledArtist`, `OneTimeArtist`) and a `Canvas` that
manages a list of artists.  The class hierarchy is embedded as one
structure `Artist` carrying the fields common to all variants plus an
`ArtistKind` sum holding the per-variant state.  Python integers are
`Int`, the random 10-letter id is an opaque `String` (id generation is
ambient randomness in the source, so constructors here take the id as a
parameter), and the matplotlib figure/axes pair is abstracted to a
`surface : List String` recording, in order, the ids of the artists whose
draw callback has run since the last `resetAxes` — the only observable
the specification talks about.  Methods become pure functions from the
receiver to an updated receiver.
-/

/-- Per-variant state of the `Artist` subclasses of `pyframe.py`:
`base` for plain `Artist`, `timed start end` for `TimedArtist`
(`end` is a Lean keyword, so the field is `stop`), `toggled state` for
`ToggledArtist` (`state` is the Python string `'active'`/`'inactive'`,
kept as a `String` because the source does not validate it), and
`oneTime when drawn` for `OneTimeArtist`. -/
inductive ArtistKind where
  | base : ArtistKind
  | timed (start stop : Int) : ArtistKind
  | toggled (state : String) : ArtistKind
  | oneTime (whenFrame : Int) (drawn : Bool) : ArtistKind
deriving DecidableEq, Repr

/-- An artist: fields of `Artist.__init__` (`id`, `layer`, `deactivated`;
the `artist_factory` callback is abstracted away — its only observable
effect is the surface log kept by the canvas) plus the variant state. -/
structure Artist where
  id : String
  layer : Int
  deactivated : Bool
  kind : ArtistKind
deriving DecidableEq, Repr

namespace Artist

/-- `Artist(artist_factory, layer)`: `deactivated = False`. -/
def mkArtist (id : String) (layer : Int) : Artist :=
  { id := id, layer := layer, deactivated := false, kind := .base }

/-- `TimedArtist(artist_factory, start, end, layer)`: no validation of
`start`/`end`. -/
def mkTimedArtist (id : String) (start stop layer : Int) : Artist :=
  { id := id, layer := layer, deactivated := false, kind := .timed start stop }

/-- `ToggledArtist(artist_factory, state, layer)`. -/
def mkToggledArtist (id : String) (state : String) (layer : Int) : Artist :=
  { id := id, layer := layer, deactivated := false, kind := .toggled state }

/-- `OneTimeArtist(artist_factory, when, layer)`: `drawn = False`. -/
def mkOneTimeArtist (id : String) (whenFrame layer : Int) : Artist :=
  { id := id, layer := layer, deactivated := false,
    kind := .oneTime whenFrame false }

/-- `deactivate()`: `self.deactivated = True`. -/
def deactivate (a : Artist) : Artist := { a with deactivated := true }

/-- The state change performed by `draw(ax)` on the artist itself:
every variant runs the callback and `plt.draw()` (recorded at canvas
level); only `OneTimeArtist.draw` additionally sets `self.drawn = True`. -/
def draw (a : Artist) : Artist :=
  match a.kind with
  | .oneTime w _ => { a with kind := .oneTime w true }
  | _ => a

/-- `ToggledArtist.toggle()`:
`self.state = 'active' if self.state == 'inactive' else 'inactive'`.
The method exists only on `ToggledArtist`; on other variants it is the
identity here (it is never called on them). -/
def toggle (a : Artist) : Artist :=
  match a.kind with
  | .toggled st =>
      { a with kind := .toggled (if st == "inactive" then "active" else "inactive") }
  | _ => a

/-- `isActive(frame_counter)` of each variant, verbatim:
`Artist`: `not self.deactivated`;
`TimedArtist`: `frame_counter >= self.start and frame_counter <= self.end
and not self.deactivated`;
`ToggledArtist`: `self.state == 'active' and not self.deactivated`;
`OneTimeArtist`: `frame_counter == self.when and not self.deactivated`. -/
def isActive (a : Artist) (frame_counter : Int) : Bool :=
  match a.kind with
  | .base => !a.deactivated
  | .timed s e =>
      decide (frame_counter ≥ s) && decide (frame_counter ≤ e) && !a.deactivated
  | .toggled st => st == "active" && !a.deactivated
  | .oneTime w _ => frame_counter == w && !a.deactivated

/-- `isDone(frame_counter)` of each variant, verbatim:
`Artist`: `self.deactivated`;
`TimedArtist`: `frame_counter > self.end or self.deactivated`;
`ToggledArtist`: `self.deactivated`;
`OneTimeArtist`: `self.drawn or self.deactivated`. -/
def isDone (a : Artist) (frame_counter : Int) : Bool :=
  match a.kind with
  | .base => a.deactivated
  | .timed _ e => decide (frame_counter > e) || a.deactivated
  | .toggled _ => a.deactivated
  | .oneTime _ drawn => drawn || a.deactivated

/-- `Artist.__eq__(self, other)`: `return self.id == other.id`. -/
def beq (a b : Artist) : Bool := a.id == b.id

/-- `__eq__` with a dynamically typed right operand, as Python evaluates
it: the operand is represented by its `id` attribute if it has one
(`some i`), or `none` if it lacks one, in which case the attribute
access `other.id` raises `AttributeError`. -/
def eqPy (a : Artist) (other : Option String) : Except String Bool :=
  match other with
  | some i => .ok (a.id == i)
  | none => .error "AttributeError"

/-- Mutating operations available on an artist between frames. -/
inductive Op where
  | drawOp : Op
  | deactivateOp : Op
  | toggleOp : Op
deriving DecidableEq, Repr

/-- Apply one operation. -/
def applyOp (a : Artist) : Op → Artist
  | .drawOp => a.draw
  | .deactivateOp => a.deactivate
  | .toggleOp => a.toggle

/-- Apply a sequence of operations, oldest first. -/
def applyOps (a : Artist) (ops : List Op) : Artist :=
  ops.foldl applyOp a

end Artist

/-!
The `Canvas` class.  The matplotlib `fig`/`ax` pair is abstracted to
`surface`, the ordered log of artist ids drawn onto the axes since the
last `resetAxes()`; the figure geometry (`width`, `height`, `dpi`,
`xlims`, `ylims`) only parameterizes matplotlib and is not modelled.
-/

structure Canvas where
  frame_counter : Int
  artists : List Artist
  surface : List String
deriving DecidableEq, Repr

namespace Canvas

/-- `Canvas.__init__`: `frame_counter = 1`, `artists = []`, fresh axes. -/
def init : Canvas := { frame_counter := 1, artists := [], surface := [] }

/-- Stable insert of `a` after every element whose layer is not greater:
the building block of the stable sort below. -/
def insertLayer (a : Artist) : List Artist → List Artist
  | [] => [a]
  | b :: bs => if a.layer < b.layer then a :: b :: bs else b :: insertLayer a bs

/-- `list.sort(key=lambda artist: artist.layer)`: Python's sort is stable,
so it is embedded as the stable insertion sort on the layer key (any two
stable sorts with the same key agree). -/
def sortByLayer (l : List Artist) : List Artist :=
  l.foldl (fun acc a => insertLayer a acc) []

/-- `addArtist(artist)`: `self.artists += [artist]` then
`self.artists.sort(key=lambda artist: artist.layer)`. -/
def addArtist (c : Canvas) (artist : Artist) : Canvas :=
  { c with artists := sortByLayer (c.artists ++ [artist]) }

/-- `addArtistFactory(artist_factory, type, **kwargs)`: constructs
`type(artist_factory, **kwargs)` (here: the already-constructed artist,
since constructors are the `mk*` functions) then appends and re-sorts,
with the same body as `addArtist`. -/
def addArtistFactory (c : Canvas) (constructed : Artist) : Canvas :=
  { c with artists := sortByLayer (c.artists ++ [constructed]) }

/-- `getAllArtists(asString=False)` without the string option: returns
the managed list itself. -/
def getAllArtists (c : Canvas) : List Artist := c.artists

/-- `getActiveArtists(asString=False)` without the string option. -/
def getActiveArtists (c : Canvas) : List Artist :=
  c.artists.filter (fun artist => artist.isActive c.frame_counter)

/-- `list.remove(x)`: removes the first element equal to `x`, where
artist equality compares ids only (`Artist.__eq__`), so the argument is
the id of the artist being removed. -/
def removeFirstById (i : String) : List Artist → List Artist
  | [] => []
  | b :: bs => if b.id == i then bs else b :: removeFirstById i bs

/-- The effect of one loop iteration of `Canvas.draw` on the artist
itself: call `artist.draw(ax)` when active, leave it alone otherwise. -/
def stepArtist (fc : Int) (a : Artist) : Artist :=
  if a.isActive fc then a.draw else a

/-- The first loop of `Canvas.draw`: for each artist in order, if
`isActive(frame_counter)` call `artist.draw(ax)` (mutating the artist
and appending its id to the surface log), then — on the possibly just
mutated artist, since Python mutates in place — if `isDone(frame_counter)`
append it to `up_for_ramoval`.  Returns the updated artist list, the
ids drawn, and the ids marked for removal, each in iteration order. -/
def drawPass (fc : Int) : List Artist → List Artist × List String × List String
  | [] => ([], [], [])
  | a :: rest =>
    let a' := if a.isActive fc then a.draw else a
    let r := drawPass fc rest
    (a' :: r.1,
     (if a.isActive fc then [a.id] else []) ++ r.2.1,
     (if a'.isDone fc then [a'.id] else []) ++ r.2.2)

/-- `Canvas.draw()`: run the pass, then
`for artist in up_for_ramoval: self.artists.remove(artist)`. -/
def draw (c : Canvas) : Canvas :=
  let r := drawPass c.frame_counter c.artists
  { c with
    artists := r.2.2.foldl (fun l i => removeFirstById i l) r.1,
    surface := c.surface ++ r.2.1 }

/-- `resetAxes()`: `self.ax.clear()` then reapply the limits — the
surface log is emptied. -/
def resetAxes (c : Canvas) : Canvas := { c with surface := [] }

/-- `show()` (`show` is a Lean keyword, hence `showFig`): `self.draw()`
then `plt.show()` (no state change). -/
def showFig (c : Canvas) : Canvas := c.draw

/-- `save(folder, fname)`: `self.draw()`, then
`self.fig.savefig(f"{folder}/{fname}_{self.frame_counter}")`, then
`self.resetAxes()`, then `self.frame_counter += 1`.  Returns the new
canvas, the path written, and the surface content written there. -/
def save (c : Canvas) (folder fname : String) : Canvas × String × List String :=
  let c1 := c.draw
  let path := folder ++ "/" ++ fname ++ "_" ++ toString c1.frame_counter
  let written := c1.surface
  let c2 := c1.resetAxes
  ({ c2 with frame_counter := c2.frame_counter + 1 }, path, written)

end Canvas

/-- Example canvas at frame 1 holding a plain artist and a `OneTimeArtist`
scheduled for the current frame, with distinct ids. -/
def cOneTime : Canvas :=
  { frame_counter := 1,
    artists := [Artist.mkArtist "a" 0, Artist.mkOneTimeArtist "b" 1 0],
    surface := [] }

/-- Example canvas at frame 1 whose two artists share the id `"x"`:
a plain artist (never done) and a `OneTimeArtist` scheduled for the
current frame (done right after its draw). -/
def cDup : Canvas :=
  { frame_counter := 1,
    artists := [Artist.mkArtist "x" 0, Artist.mkOneTimeArtist "x" 1 0],
    surface := [] }

/-! ### Basic facts about the artist operations -/

namespace Artist

theorem draw_id (a : Artist) : a.draw.id = a.id := by
  rcases a with ⟨i, l, d, k⟩; cases k <;> rfl

theorem draw_layer (a : Artist) : a.draw.layer = a.layer := by
  rcases a with ⟨i, l, d, k⟩; cases k <;> rfl

theorem draw_deactivated (a : Artist) : a.draw.deactivated = a.deactivated := by
  rcases a with ⟨i, l, d, k⟩; cases k <;> rfl

theorem isActive_draw (a : Artist) (f : Int) :
    a.draw.isActive f = a.isActive f := by
  rcases a with ⟨i, l, d, k⟩; cases k <;> rfl

theorem isActive_false_of_deactivated (a : Artist) (f : Int)
    (h : a.deactivated = true) : a.isActive f = false := by
  rcases a with ⟨i, l, d, k⟩
  subst h
  cases k <;> simp [isActive]

theorem isDone_true_of_deactivated (a : Artist) (f : Int)
    (h : a.deactivated = true) : a.isDone f = true := by
  rcases a with ⟨i, l, d, k⟩
  subst h
  cases k <;> simp [isDone]

theorem applyOp_deactivated (a : Artist) (op : Op)
    (h : a.deactivated = true) : (a.applyOp op).deactivated = true := by
  cases op with
  | drawOp => rw [applyOp, draw_deactivated]; exact h
  | deactivateOp => rfl
  | toggleOp =>
      rcases a with ⟨i, l, d, k⟩
      cases k <;> simpa [applyOp, toggle] using h

theorem applyOps_deactivated (a : Artist) (ops : List Op)
    (h : a.deactivated = true) : (a.applyOps ops).deactivated = true := by
  induction ops generalizing a with
  | nil => exact h
  | cons op rest ih => exact ih _ (applyOp_deactivated a op h)

theorem applyOps_oneTime_drawn (a : Artist) (w : Int) (ops : List Op)
    (h : a.kind = .oneTime w true) :
    (a.applyOps ops).kind = .oneTime w true := by
  induction ops generalizing a with
  | nil => exact h
  | cons op rest ih =>
      refine ih _ ?_
      rcases a with ⟨i, l, d, k⟩
      subst h
      cases op <;> rfl

end Artist

/-! ### The draw pass in closed form -/

namespace Canvas

theorem stepArtist_id (fc : Int) (a : Artist) :
    (stepArtist fc a).id = a.id := by
  unfold stepArtist
  split
  · exact Artist.draw_id a
  · rfl

theorem drawPass_fst (fc : Int) (l : List Artist) :
    (drawPass fc l).1 = l.map (stepArtist fc) := by
  induction l with
  | nil => rfl
  | cons a rest ih => simp [drawPass, stepArtist, ih]

theorem drawPass_drawn (fc : Int) (l : List Artist) :
    (drawPass fc l).2.1 = (l.filter (fun a => a.isActive fc)).map Artist.id := by
  induction l with
  | nil => rfl
  | cons a rest ih =>
      by_cases h : a.isActive fc = true <;>
        simp [drawPass, List.filter_cons, h, ih]

theorem drawPass_marked (fc : Int) (l : List Artist) :
    (drawPass fc l).2.2 =
      ((l.map (stepArtist fc)).filter (fun a => a.isDone fc)).map Artist.id := by
  induction l with
  | nil => rfl
  | cons a rest ih =>
      by_cases h : (Artist.isDone (if a.isActive fc then a.draw else a) fc) = true <;>
        simp [drawPass, stepArtist, List.filter_cons, h, ih]

theorem draw_frame_counter (c : Canvas) :
    (draw c).frame_counter = c.frame_counter := rfl

theorem draw_surface (c : Canvas) :
    (draw c).surface =
      c.surface ++ (c.artists.filter (fun a => a.isActive c.frame_counter)).map Artist.id := by
  unfold draw
  simp [drawPass_drawn]

theorem removeFirstById_cons_ne (i : String) (b : Artist) (l : List Artist)
    (h : b.id ≠ i) : removeFirstById i (b :: l) = b :: removeFirstById i l := by
  simp [removeFirstById, h]

theorem foldl_remove_of_not_mem (ms : List String) (a : Artist) (t : List Artist)
    (h : ∀ i ∈ ms, i ≠ a.id) :
    ms.foldl (fun l i => removeFirstById i l) (a :: t) =
      a :: ms.foldl (fun l i => removeFirstById i l) t := by
  induction ms generalizing t with
  | nil => rfl
  | cons i rest ih =>
      have hi : a.id ≠ i := fun hEq => h i (by simp) hEq.symm
      simp only [List.foldl_cons, removeFirstById_cons_ne i a t hi]
      exact ih (removeFirstById i t) (fun j hj => h j (by simp [hj]))

theorem foldl_remove_filter (p : Artist → Bool) (l : List Artist)
    (h : (l.map Artist.id).Nodup) :
    ((l.filter p).map Artist.id).foldl (fun acc i => removeFirstById i acc) l =
      l.filter (fun a => !(p a)) := by
  induction l with
  | nil => rfl
  | cons a rest ih =>
      simp only [List.map_cons, List.nodup_cons] at h
      obtain ⟨hnot, hrest⟩ := h
      by_cases hp : p a = true
      · simp only [List.filter_cons, hp, if_pos, List.map_cons, List.foldl_cons]
        have : removeFirstById a.id (a :: rest) = rest := by
          simp [removeFirstById]
        rw [this, ih hrest]
        simp [List.filter_cons, hp]
      · have hp' : p a = false := by simpa using hp
        simp only [List.filter_cons, hp', if_neg, List.foldl_cons, Bool.false_eq_true,
          if_false]
        have hne : ∀ i ∈ (rest.filter p).map Artist.id, i ≠ a.id := by
          intro i hi hEq
          rcases List.mem_map.mp hi with ⟨b, hb, hbid⟩
          exact hnot (List.mem_map.mpr ⟨b, List.mem_of_mem_filter hb, by rw [hbid, hEq]⟩)
        rw [foldl_remove_of_not_mem _ a rest hne, ih hrest]
        simp [List.filter_cons, hp']

theorem draw_artists (c : Canvas) (h : (c.artists.map Artist.id).Nodup) :
    (draw c).artists =
      (c.artists.map (stepArtist c.frame_counter)).filter
        (fun a => !(a.isDone c.frame_counter)) := by
  unfold draw
  simp only [drawPass_fst, drawPass_marked]
  apply foldl_remove_filter
  have : (c.artists.map (stepArtist c.frame_counter)).map Artist.id
      = c.artists.map Artist.id := by
    simp [List.map_map, Function.comp, stepArtist_id]
  rw [this]
  exact h

end Canvas

/-! ### The layer sort: sortedness, permutation, stability -/

namespace Canvas

theorem insertLayer_perm (a : Artist) (l : List Artist) :
    (insertLayer a l).Perm (a :: l) := by
  induction l with
  | nil => exact List.Perm.refl _
  | cons b bs ih =>
      by_cases h : a.layer < b.layer
      · simp [insertLayer, h]
      · simp only [insertLayer, if_neg h]
        exact (ih.cons b).trans (List.Perm.swap a b bs)

theorem insertLayer_sorted (a : Artist) (l : List Artist)
    (h : l.Pairwise (fun x y => x.layer ≤ y.layer)) :
    (insertLayer a l).Pairwise (fun x y => x.layer ≤ y.layer) := by
  induction l with
  | nil => simp [insertLayer]
  | cons b bs ih =>
      rw [List.pairwise_cons] at h
      obtain ⟨hb, hbs⟩ := h
      by_cases hab : a.layer < b.layer
      · rw [insertLayer, if_pos hab, List.pairwise_cons]
        refine ⟨?_, List.pairwise_cons.mpr ⟨hb, hbs⟩⟩
        intro x hx
        rcases List.mem_cons.mp hx with hxb | hxbs
        · subst hxb; exact le_of_lt hab
        · exact le_trans (le_of_lt hab) (hb x hxbs)
      · rw [insertLayer, if_neg hab, List.pairwise_cons]
        refine ⟨?_, ih hbs⟩
        intro x hx
        have hx' : x ∈ a :: bs := (insertLayer_perm a bs).mem_iff.mp hx
        rcases List.mem_cons.mp hx' with hxa | hxbs
        · subst hxa; exact le_of_not_lt hab
        · exact hb x hxbs

theorem sortByLayer_sorted_from (l : List Artist) (acc : List Artist)
    (hacc : acc.Pairwise (fun x y => x.layer ≤ y.layer)) :
    (l.foldl (fun acc a => insertLayer a acc) acc).Pairwise
      (fun x y => x.layer ≤ y.layer) := by
  induction l generalizing acc with
  | nil => exact hacc
  | cons a rest ih => exact ih _ (insertLayer_sorted a acc hacc)

theorem sortByLayer_sorted (l : List Artist) :
    (sortByLayer l).Pairwise (fun x y => x.layer ≤ y.layer) :=
  sortByLayer_sorted_from l [] (by simp)

theorem sortByLayer_perm_from (l : List Artist) (acc : List Artist) :
    (l.foldl (fun acc a => insertLayer a acc) acc).Perm (acc ++ l) := by
  induction l generalizing acc with
  | nil => simp
  | cons a rest ih =>
      refine ((ih (insertLayer a acc)).trans ?_)
      refine (((insertLayer_perm a acc).append_right rest).trans ?_)
      exact List.perm_middle.symm

theorem sortByLayer_perm (l : List Artist) : (sortByLayer l).Perm l := by
  simpa using sortByLayer_perm_from l []

theorem insertLayer_eq_append (a : Artist) (l : List Artist)
    (h : ∀ b ∈ l, ¬(a.layer < b.layer)) : insertLayer a l = l ++ [a] := by
  induction l with
  | nil => rfl
  | cons b bs ih =>
      rw [insertLayer, if_neg (h b (by simp)), ih (fun x hx => h x (by simp [hx]))]
      rfl

theorem sortByLayer_append_singleton (l : List Artist) (a : Artist) :
    sortByLayer (l ++ [a]) = insertLayer a (sortByLayer l) := by
  simp [sortByLayer, List.foldl_append]

theorem sortByLayer_of_sorted (l : List Artist)
    (h : l.Pairwise (fun x y => x.layer ≤ y.layer)) : sortByLayer l = l := by
  induction l using List.reverseRecOn with
  | nil => rfl
  | append_singleton xs a ih =>
      rw [List.pairwise_append] at h
      obtain ⟨hxs, _, hcross⟩ := h
      rw [sortByLayer_append_singleton, ih hxs]
      exact insertLayer_eq_append a xs
        (fun b hb => not_lt.mpr (hcross b hb a (by simp)))

theorem sortByLayer_idem (l : List Artist) :
    sortByLayer (sortByLayer l) = sortByLayer l :=
  sortByLayer_of_sorted _ (sortByLayer_sorted l)

theorem insertLayer_decomp (a : Artist) (l : List Artist) :
    ∃ l₁ l₂, l = l₁ ++ l₂ ∧ insertLayer a l = l₁ ++ a :: l₂ := by
  induction l with
  | nil => exact ⟨[], [], rfl, rfl⟩
  | cons b bs ih =>
      by_cases h : a.layer < b.layer
      · exact ⟨[], b :: bs, rfl, by rw [insertLayer, if_pos h]; rfl⟩
      · obtain ⟨l₁, l₂, h1, h2⟩ := ih
        exact ⟨b :: l₁, l₂, by rw [h1]; rfl,
          by rw [insertLayer, if_neg h, h2]; rfl⟩

theorem insertLayer_filter_of_neg (a : Artist) (l : List Artist)
    (p : Artist → Bool) (hp : p a = false) :
    (insertLayer a l).filter p = l.filter p := by
  obtain ⟨l₁, l₂, h1, h2⟩ := insertLayer_decomp a l
  rw [h2, h1]
  simp [List.filter_append, List.filter_cons, hp]

theorem insertLayer_filter_eq_layer (a : Artist) (l : List Artist)
    (h : l.Pairwise (fun x y => x.layer ≤ y.layer)) :
    (insertLayer a l).filter (fun x => x.layer == a.layer) =
      l.filter (fun x => x.layer == a.layer) ++ [a] := by
  induction l with
  | nil => simp [insertLayer]
  | cons b bs ih =>
      rw [List.pairwise_cons] at h
      obtain ⟨hb, hbs⟩ := h
      by_cases hab : a.layer < b.layer
      · rw [insertLayer, if_pos hab]
        have hfil : (b :: bs).filter (fun x => x.layer == a.layer) = [] := by
          rw [List.filter_eq_nil_iff]
          intro x hx
          rcases List.mem_cons.mp hx with hxb | hxbs
          · subst hxb; simp; omega
          · have hle := hb x hxbs; simp; omega
        simp [List.filter_cons, hfil]
      · rw [insertLayer, if_neg hab]
        by_cases hbk : (b.layer == a.layer) = true <;>
          simp [List.filter_cons, hbk, ih hbs]

theorem sortByLayer_filter_layer (l : List Artist) (k : Int) :
    (sortByLayer l).filter (fun a => a.layer == k) =
      l.filter (fun a => a.layer == k) := by
  induction l using List.reverseRecOn with
  | nil => rfl
  | append_singleton xs a ih =>
      rw [sortByLayer_append_singleton]
      by_cases hk : (a.layer == k) = true
      · have hk' : a.layer = k := by simpa using hk
        subst hk'
        rw [insertLayer_filter_eq_layer a _ (sortByLayer_sorted xs), ih]
        simp [List.filter_append, List.filter_cons]
      · have hk' : (a.layer == k) = false := by simpa using hk
        rw [insertLayer_filter_of_neg a _ _ hk', ih]
        simp [List.filter_append, List.filter_cons, hk']

theorem sortByLayer_sortByLayer_append (x y : List Artist) :
    sortByLayer (sortByLayer x ++ y) = sortByLayer (x ++ y) := by
  show List.foldl (fun acc a => insertLayer a acc) [] (sortByLayer x ++ y)
      = List.foldl (fun acc a => insertLayer a acc) [] (x ++ y)
  rw [List.foldl_append, List.foldl_append]
  show List.foldl (fun acc a => insertLayer a acc) (sortByLayer (sortByLayer x)) y
      = List.foldl (fun acc a => insertLayer a acc) (sortByLayer x) y
  rw [sortByLayer_idem]

theorem foldl_addArtist (regs : List Artist) (c : Canvas)
    (h : sortByLayer c.artists = c.artists) :
    (regs.foldl addArtist c).artists = sortByLayer (c.artists ++ regs) := by
  induction regs generalizing c with
  | nil => simpa using h.symm
  | cons a rest ih =>
      have h2 : sortByLayer (addArtist c a).artists = (addArtist c a).artists := by
        simp [addArtist, sortByLayer_idem]
      calc (List.foldl addArtist c (a :: rest)).artists
          = (List.foldl addArtist (addArtist c a) rest).artists := rfl
        _ = sortByLayer ((addArtist c a).artists ++ rest) := ih _ h2
        _ = sortByLayer (sortByLayer (c.artists ++ [a]) ++ rest) := rfl
        _ = sortByLayer ((c.artists ++ [a]) ++ rest) :=
              sortByLayer_sortByLayer_append _ _
        _ = sortByLayer (c.artists ++ a :: rest) := by simp

end Canvas

/-! ### Additional artist lemmas used by the claims -/

theorem Artist.isDone_of_oneTime_drawn (a : Artist) (w : Int) (f : Int)
    (h : a.kind = .oneTime w true) : a.isDone f = true := by
  rcases a with ⟨i, l, d, k⟩
  subst h
  simp [Artist.isDone]

/-! ### Claims about the artist family -/

/-- C2: for a `TimedArtist` with window `[start, end]`, `isActive f` holds
iff `start ≤ f ≤ end` and not deactivated, `isDone f` holds iff `f > end`
or deactivated; when `end < start` (not validated, no error), `isActive`
is false on every frame — a silently always-inactive window. -/
theorem claim_C2 (a : Artist) (s e f : Int) (hk : a.kind = .timed s e) :
    (a.isActive f = true ↔ (s ≤ f ∧ f ≤ e ∧ a.deactivated = false))
    ∧ (a.isDone f = true ↔ (e < f ∨ a.deactivated = true))
    ∧ (e < s → a.isActive f = false) := by
  rcases a with ⟨i, l, d, k⟩
  subst hk
  refine ⟨?_, ?_, ?_⟩
  · simp [Artist.isActive]
    tauto
  · simp [Artist.isDone]
  · intro h
    rcases le_or_lt s f with hs | hs
    · have he : ¬ f ≤ e := by omega
      simp [Artist.isActive, he]
    · have hs' : ¬ s ≤ f := by omega
      simp [Artist.isActive, hs']

/-- Witness for C2 at the `TimedArtist` with window `[3, 5]` and frame 4. -/
theorem claim_C2_witness :
    (Artist.mkTimedArtist "t" 3 5 0).kind = .timed 3 5
    ∧ (((Artist.mkTimedArtist "t" 3 5 0).isActive 4 = true ↔
          ((3 : Int) ≤ 4 ∧ (4 : Int) ≤ 5
            ∧ (Artist.mkTimedArtist "t" 3 5 0).deactivated = false))
      ∧ ((Artist.mkTimedArtist "t" 3 5 0).isDone 4 = true ↔
          ((5 : Int) < 4 ∨ (Artist.mkTimedArtist "t" 3 5 0).deactivated = true))
      ∧ ((5 : Int) < 3 → (Artist.mkTimedArtist "t" 3 5 0).isActive 4 = false)) :=
  ⟨rfl, claim_C2 (Artist.mkTimedArtist "t" 3 5 0) 3 5 4 rfl⟩

/-- C3: once `deactivate()` has been called, after every further sequence
of operations `isActive` is false and `isDone` is true on every frame;
no operation clears the `deactivated` flag. -/
theorem claim_C3 (a : Artist) (ops : List Artist.Op) (f : Int)
    (h : a.deactivated = true) :
    (a.applyOps ops).deactivated = true
    ∧ (a.applyOps ops).isActive f = false
    ∧ (a.applyOps ops).isDone f = true := by
  have hd := Artist.applyOps_deactivated a ops h
  exact ⟨hd, Artist.isActive_false_of_deactivated _ f hd,
    Artist.isDone_true_of_deactivated _ f hd⟩

/-- Witness for C3: a deactivated `ToggledArtist` stays inactive and done
after a further toggle and draw. -/
theorem claim_C3_witness :
    ((Artist.mkToggledArtist "g" "active" 0).deactivate).deactivated = true
    ∧ ((((Artist.mkToggledArtist "g" "active" 0).deactivate).applyOps
          [Artist.Op.toggleOp, Artist.Op.drawOp]).deactivated = true
      ∧ (((Artist.mkToggledArtist "g" "active" 0).deactivate).applyOps
          [Artist.Op.toggleOp, Artist.Op.drawOp]).isActive 7 = false
      ∧ (((Artist.mkToggledArtist "g" "active" 0).deactivate).applyOps
          [Artist.Op.toggleOp, Artist.Op.drawOp]).isDone 7 = true) :=
  ⟨rfl, claim_C3 _ _ 7 rfl⟩

/-- C4: a never-deactivated `OneTimeArtist` with `when = w` is active
exactly at `f = w`; after its one `draw()`, `isDone w` is true immediately
and permanently (no further frame advancement, no later operation changes
it), because `draw()` sets `drawn = true`. -/
theorem claim_C4 (a : Artist) (w : Int) (hk : a.kind = .oneTime w false)
    (hd : a.deactivated = false) :
    (∀ f, a.isActive f = true ↔ f = w)
    ∧ a.draw.isDone w = true
    ∧ (∀ (ops : List Artist.Op) (g : Int),
        ((a.draw).applyOps ops).isDone g = true) := by
  rcases a with ⟨i, l, d, k⟩
  subst hk
  subst hd
  refine ⟨?_, rfl, ?_⟩
  · intro f; simp [Artist.isActive]
  · intro ops g
    exact Artist.isDone_of_oneTime_drawn _ w g
      (Artist.applyOps_oneTime_drawn _ w ops rfl)

/-- Witness for C4 at the `OneTimeArtist` scheduled for frame 2. -/
theorem claim_C4_witness :
    (Artist.mkOneTimeArtist "o" 2 0).kind = .oneTime 2 false
    ∧ (Artist.mkOneTimeArtist "o" 2 0).deactivated = false
    ∧ ((∀ f, (Artist.mkOneTimeArtist "o" 2 0).isActive f = true ↔ f = 2)
      ∧ (Artist.mkOneTimeArtist "o" 2 0).draw.isDone 2 = true
      ∧ (∀ (ops : List Artist.Op) (g : Int),
          (((Artist.mkOneTimeArtist "o" 2 0).draw).applyOps ops).isDone g = true)) :=
  ⟨rfl, rfl, claim_C4 _ 2 rfl rfl⟩

/-- C7: on a `ToggledArtist` whose state is `'active'` or `'inactive'`,
`toggle()` flips the state, is an involution, and (when not deactivated)
`isActive` alternates with each call. -/
theorem claim_C7 (a : Artist) (st : String) (f : Int)
    (hk : a.kind = .toggled st) (hst : st = "active" ∨ st = "inactive") :
    a.toggle.toggle = a
    ∧ (a.deactivated = false → a.toggle.isActive f = !(a.isActive f))
    ∧ (st = "active" → a.toggle.kind = .toggled "inactive")
    ∧ (st = "inactive" → a.toggle.kind = .toggled "active") := by
  rcases a with ⟨i, l, d, k⟩
  subst hk
  rcases hst with h | h <;> subst h
  · exact ⟨rfl, fun hd => by subst hd; rfl, fun _ => rfl, fun h => by simp at h⟩
  · exact ⟨rfl, fun hd => by subst hd; rfl, fun h => by simp at h, fun _ => rfl⟩

/-- Witness for C7 at a `ToggledArtist` constructed in state `'inactive'`. -/
theorem claim_C7_witness :
    (Artist.mkToggledArtist "g" "inactive" 0).kind = .toggled "inactive"
    ∧ ("inactive" = "active" ∨ "inactive" = "inactive")
    ∧ ((Artist.mkToggledArtist "g" "inactive" 0).toggle.toggle
          = Artist.mkToggledArtist "g" "inactive" 0
      ∧ ((Artist.mkToggledArtist "g" "inactive" 0).deactivated = false →
          (Artist.mkToggledArtist "g" "inactive" 0).toggle.isActive 1
            = !((Artist.mkToggledArtist "g" "inactive" 0).isActive 1))
      ∧ ("inactive" = "active" →
          (Artist.mkToggledArtist "g" "inactive" 0).toggle.kind = .toggled "inactive")
      ∧ ("inactive" = "inactive" →
          (Artist.mkToggledArtist "g" "inactive" 0).toggle.kind = .toggled "active")) :=
  ⟨rfl, Or.inr rfl, claim_C7 _ "inactive" 1 rfl (Or.inr rfl)⟩

/-- C8: artist equality is decided solely by `id` — equal iff the ids
are equal, regardless of all other content — and comparing against a
value without an `id` attribute raises `AttributeError` instead of
returning `False`. -/
theorem claim_C8 :
    (∀ a b : Artist, Artist.beq a b = true ↔ a.id = b.id)
    ∧ Artist.beq ⟨"x", 0, false, .base⟩ ⟨"x", 5, true, .timed 1 2⟩ = true
    ∧ Artist.beq ⟨"x", 0, false, .base⟩ ⟨"y", 0, false, .base⟩ = false
    ∧ (∀ (a : Artist) (i : String), a.eqPy (some i) = .ok (a.id == i))
    ∧ (∀ a : Artist, a.eqPy none = .error "AttributeError") := by
  refine ⟨?_, rfl, ?_, fun a i => rfl, fun a => rfl⟩
  · intro a b; simp [Artist.beq]
  · simp [Artist.beq]

/-- C10: `OneTimeArtist.isActive` does not consult the `drawn` flag —
after `draw()`, `isActive when` is still true for a non-deactivated
artist, and `draw()` does not deactivate; removal is the canvas's job. -/
theorem claim_C10 (a : Artist) (w : Int) (d : Bool) (f : Int)
    (hk : a.kind = .oneTime w d) :
    (∀ d', Artist.isActive { a with kind := .oneTime w d' } f = a.isActive f)
    ∧ (a.deactivated = false → a.draw.isActive w = true)
    ∧ a.draw.deactivated = a.deactivated := by
  rcases a with ⟨i, l, dd, k⟩
  subst hk
  refine ⟨fun d' => rfl, ?_, rfl⟩
  intro h
  subst h
  simp [Artist.draw, Artist.isActive]

/-- Witness for C10 at an already-drawn `OneTimeArtist`. -/
theorem claim_C10_witness :
    ((Artist.mkOneTimeArtist "o" 3 0).draw).kind = .oneTime 3 true
    ∧ ((∀ d', Artist.isActive
          { (Artist.mkOneTimeArtist "o" 3 0).draw with kind := .oneTime 3 d' } 3
          = ((Artist.mkOneTimeArtist "o" 3 0).draw).isActive 3)
      ∧ (((Artist.mkOneTimeArtist "o" 3 0).draw).deactivated = false →
          ((Artist.mkOneTimeArtist "o" 3 0).draw).draw.isActive 3 = true)
      ∧ ((Artist.mkOneTimeArtist "o" 3 0).draw).draw.deactivated
          = ((Artist.mkOneTimeArtist "o" 3 0).draw).deactivated) :=
  ⟨rfl, claim_C10 _ 3 true 3 rfl⟩

/-! ### Additional artist lemma for the canvas claims -/

theorem Artist.draw_kind_oneTime (a : Artist) (w : Int) (d : Bool)
    (hk : a.kind = .oneTime w d) : a.draw.kind = .oneTime w true := by
  rcases a with ⟨i, l, dd, k⟩
  subst hk
  rfl

/-! ### Claims about the canvas -/

/-- C5: after any sequence of registrations, `getAllArtists` returns the
artists sorted ascending by layer regardless of registration order, with
equal layers in registration order (append then stable re-sort), and
`addArtistFactory` performs the same append-and-sort as `addArtist`. -/
theorem claim_C5 (regs : List Artist) :
    (regs.foldl Canvas.addArtist Canvas.init).getAllArtists
        = Canvas.sortByLayer regs
    ∧ ((regs.foldl Canvas.addArtist Canvas.init).getAllArtists).Pairwise
        (fun a b => a.layer ≤ b.layer)
    ∧ ((regs.foldl Canvas.addArtist Canvas.init).getAllArtists).Perm regs
    ∧ (∀ k : Int, ((regs.foldl Canvas.addArtist Canvas.init).getAllArtists).filter
        (fun a => a.layer == k) = regs.filter (fun a => a.layer == k))
    ∧ (∀ (c : Canvas) (a : Artist),
        Canvas.addArtistFactory c a = Canvas.addArtist c a) := by
  have hmain : (regs.foldl Canvas.addArtist Canvas.init).getAllArtists
      = Canvas.sortByLayer regs := by
    have h := Canvas.foldl_addArtist regs Canvas.init rfl
    simpa [Canvas.getAllArtists, Canvas.init] using h
  refine ⟨hmain, ?_, ?_, ?_, fun c a => rfl⟩
  · rw [hmain]; exact Canvas.sortByLayer_sorted regs
  · rw [hmain]; exact Canvas.sortByLayer_perm regs
  · intro k; rw [hmain]; exact Canvas.sortByLayer_filter_layer regs k

/-- C6: `frame_counter` starts at 1 and is changed only by `save`, which
runs the draw pass, writes the drawn surface to
`{folder}/{fname}_{frame_counter}` with the pre-increment counter,
resets the surface, and increments the counter by exactly 1; `show`,
`draw`, `resetAxes` and the registration operations leave it unchanged. -/
theorem claim_C6 (c : Canvas) (folder fname : String) :
    Canvas.init.frame_counter = 1
    ∧ (c.save folder fname).1.frame_counter = c.frame_counter + 1
    ∧ (c.save folder fname).2.1
        = folder ++ "/" ++ fname ++ "_" ++ toString c.frame_counter
    ∧ (c.save folder fname).2.2 = (c.draw).surface
    ∧ (c.save folder fname).1.surface = []
    ∧ (c.save folder fname).1.artists = (c.draw).artists
    ∧ (c.showFig).frame_counter = c.frame_counter
    ∧ (c.draw).frame_counter = c.frame_counter
    ∧ (c.resetAxes).frame_counter = c.frame_counter
    ∧ (∀ a : Artist, (c.addArtist a).frame_counter = c.frame_counter
        ∧ (c.addArtistFactory a).frame_counter = c.frame_counter) :=
  ⟨rfl, rfl, rfl, rfl, rfl, rfl, rfl, rfl, rfl, fun _ => ⟨rfl, rfl⟩⟩

/-- C1: one `Canvas.draw` call draws exactly the active artists, in list
order, onto the surface; a `OneTimeArtist` scheduled for the current
frame (not yet drawn, not deactivated) is both drawn and removed within
that same call — its draw sets `drawn = true`, so `isDone` holds when
re-evaluated against the same `frame_counter`, and the removal happens
only after the full pass. -/
theorem claim_C1 (c : Canvas) (a : Artist)
    (ha : a ∈ c.artists) (hk : a.kind = .oneTime c.frame_counter false)
    (hd : a.deactivated = false) (hids : (c.artists.map Artist.id).Nodup) :
    (c.draw).surface = c.surface
        ++ (c.artists.filter (fun x => x.isActive c.frame_counter)).map Artist.id
    ∧ a.id ∈ (c.draw).surface
    ∧ ∀ b ∈ (c.draw).artists, b.id ≠ a.id := by
  have hsurf := Canvas.draw_surface c
  have hact : a.isActive c.frame_counter = true := by
    rcases a with ⟨i, l, d, k⟩
    simp only at hk hd
    subst hk
    subst hd
    simp [Artist.isActive]
  refine ⟨hsurf, ?_, ?_⟩
  · rw [hsurf]
    exact List.mem_append.mpr (Or.inr
      (List.mem_map.mpr ⟨a, List.mem_filter.mpr ⟨ha, hact⟩, rfl⟩))
  · intro b hb hEq
    rw [Canvas.draw_artists c hids] at hb
    rcases List.mem_filter.mp hb with ⟨hbm, hbnd⟩
    rcases List.mem_map.mp hbm with ⟨orig, horig, hstep⟩
    have horigid : orig.id = a.id := by
      rw [← hEq, ← hstep, Canvas.stepArtist_id]
    have horiga : orig = a := List.inj_on_of_nodup_map hids horig ha horigid
    have hba : b = Canvas.stepArtist c.frame_counter a := by
      rw [← hstep, horiga]
    have hdone : b.isDone c.frame_counter = true := by
      rw [hba, Canvas.stepArtist, if_pos hact]
      exact Artist.isDone_of_oneTime_drawn _ c.frame_counter _
        (Artist.draw_kind_oneTime a c.frame_counter false hk)
    rw [hdone] at hbnd
    simp at hbnd

/-- Witness for C1: on `cOneTime`, the pass draws both artists and the
`OneTimeArtist` `"b"` is gone from the managed list afterwards. -/
theorem claim_C1_witness :
    Artist.mkOneTimeArtist "b" 1 0 ∈ cOneTime.artists
    ∧ (Artist.mkOneTimeArtist "b" 1 0).kind = .oneTime cOneTime.frame_counter false
    ∧ (Artist.mkOneTimeArtist "b" 1 0).deactivated = false
    ∧ (cOneTime.artists.map Artist.id).Nodup
    ∧ ((Canvas.draw cOneTime).surface = cOneTime.surface
        ++ (cOneTime.artists.filter
              (fun x => x.isActive cOneTime.frame_counter)).map Artist.id
      ∧ (Artist.mkOneTimeArtist "b" 1 0).id ∈ (Canvas.draw cOneTime).surface
      ∧ ∀ b ∈ (Canvas.draw cOneTime).artists,
          b.id ≠ (Artist.mkOneTimeArtist "b" 1 0).id) :=
  ⟨by decide, rfl, rfl, by decide,
    claim_C1 cOneTime (Artist.mkOneTimeArtist "b" 1 0)
      (by decide) rfl rfl (by decide)⟩

/-- C9: under pairwise-distinct ids, one `Canvas.draw` pass removes
exactly the artists for which `isDone` held during the pass, the
survivors keeping their relative order; removal uses `list.remove`
(first element equal by id), so with duplicate ids a different artist
than the done one can be removed — on `cDup` the never-done plain artist
is removed and the done `OneTimeArtist` survives. -/
theorem claim_C9 (c : Canvas) (hids : (c.artists.map Artist.id).Nodup) :
    (c.draw).artists
      = (c.artists.map (Canvas.stepArtist c.frame_counter)).filter
          (fun a => !(a.isDone c.frame_counter))
    ∧ (Canvas.draw cDup).artists
      = [{ id := "x", layer := 0, deactivated := false,
           kind := .oneTime 1 true }] :=
  ⟨Canvas.draw_artists c hids, by decide⟩

/-- Witness for C9 at the duplicate-free canvas `cOneTime`. -/
theorem claim_C9_witness :
    (cOneTime.artists.map Artist.id).Nodup
    ∧ ((Canvas.draw cOneTime).artists
        = (cOneTime.artists.map (Canvas.stepArtist cOneTime.frame_counter)).filter
            (fun a => !(a.isDone cOneTime.frame_counter))
      ∧ (Canvas.draw cDup).artists
        = [{ id := "x", layer := 0, deactivated := false,
             kind := .oneTime 1 true }]) :=
  ⟨by decide, claim_C9 cOneTime (by decide)⟩
